import Mathlib

/-!
Shallow embedding of the control-plane core of this repository: the JWT
token signer/verifier (`pkg/jwt`), the session store
(`internal/service/session` with the in-memory `SessionRepository`), and
the service registry (`internal/service/registry`).

Conventions of the embedding:
* Go byte strings are `List Nat` with each element `< 256`.
* `time.Time` values are modelled at one-second granularity as `Nat`
  seconds since 0001-01-01T00:00:00 UTC (Go's zero time is `0`), and
  `time.Duration` values as whole seconds.  Every operation that calls
  `time.Now()` in Go takes the current instant as an explicit argument.
* Library calls (`encoding/json`, `encoding/base64`, `crypto/hmac`,
  `crypto/sha256`) are embedded as executable Lean implementations of the
  library behaviour on the values this program feeds them.
-/

deriving instance DecidableEq for Except

/-- ASCII bytes of a string literal (all literals used are 7-bit ASCII). -/
def ascii (s : String) : List Nat := s.data.map (fun c => c.toNat)

/-- `strings.Split` on a one-byte separator: splits at every occurrence,
keeping empty segments, and yields one more segment than separators. -/
def splitByte (sep : Nat) : List Nat → List (List Nat)
  | [] => [[]]
  | b :: rest =>
    match splitByte sep rest with
    | [] => [[]]
    | s :: ss => if b = sep then [] :: s :: ss else (b :: s) :: ss

/-- Strip an expected prefix from a byte list, or fail. -/
def stripPre : List Nat → List Nat → Option (List Nat)
  | [], s => some s
  | _ :: _, [] => none
  | p :: ps, c :: cs => if p = c then stripPre ps cs else none

/-- Replace the byte at index `i` by the image under `f` (used to model
single-byte corruption of a token). -/
def mapAt (i : Nat) (f : Nat → Nat) : List Nat → List Nat
  | [] => []
  | b :: rest =>
    match i with
    | 0 => f b :: rest
    | j + 1 => b :: mapAt j f rest

/-! SHA-256 and HMAC-SHA256 (`crypto/sha256`, `crypto/hmac`)

Pure-`Nat` implementation of FIPS 180-4 SHA-256; words are `Nat < 2^32`
with explicit reduction `% 2^32`. -/

def u32 (x : Nat) : Nat := x % 4294967296

def rotr (n x : Nat) : Nat := (x >>> n) ||| (u32 (x <<< (32 - n)))

def bigS0 (x : Nat) : Nat := rotr 2 x ^^^ rotr 13 x ^^^ rotr 22 x

def bigS1 (x : Nat) : Nat := rotr 6 x ^^^ rotr 11 x ^^^ rotr 25 x

def smallS0 (x : Nat) : Nat := rotr 7 x ^^^ rotr 18 x ^^^ (x >>> 3)

def smallS1 (x : Nat) : Nat := rotr 17 x ^^^ rotr 19 x ^^^ (x >>> 10)

def chf (x y z : Nat) : Nat := (x &&& y) ^^^ ((4294967295 - x) &&& z)

def majf (x y z : Nat) : Nat := (x &&& y) ^^^ (x &&& z) ^^^ (y &&& z)

def sha256K : List Nat :=
  [1116352408, 1899447441, 3049323471, 3921009573, 961987163, 1508970993,
   2453635748, 2870763221, 3624381080, 310598401, 607225278, 1426881987,
   1925078388, 2162078206, 2614888103, 3248222580, 3835390401, 4022224774,
   264347078, 604807628, 770255983, 1249150122, 1555081692, 1996064986,
   2554220882, 2821834349, 2952996808, 3210313671, 3336571891, 3584528711,
   113926993, 338241895, 666307205, 773529912, 1294757372, 1396182291,
   1695183700, 1986661051, 2177026350, 2456956037, 2730485921, 2820302411,
   3259730800, 3345764771, 3516065817, 3600352804, 4094571909, 275423344,
   430227734, 506948616, 659060556, 883997877, 958139571, 1322822218,
   1537002063, 1747873779, 1955562222, 2024104815, 2227730452, 2361852424,
   2428436474, 2756734187, 3204031479, 3329325298]

def sha256H0 : List Nat :=
  [1779033703, 3144134277, 1013904242, 2773480762,
   1359893119, 2600822924, 528734635, 1541459225]

/-- One step of the message-schedule extension.  `acc` holds the words
produced so far, most recent first. -/
def extendOnce (acc : List Nat) : List Nat :=
  let w := fun (k : Nat) => acc.getD (k - 1) 0
  u32 (w 16 + smallS0 (w 15) + w 7 + smallS1 (w 2)) :: acc

def extendN : Nat → List Nat → List Nat
  | 0, acc => acc
  | n + 1, acc => extendN n (extendOnce acc)

structure Hash8 where
  a : Nat
  b : Nat
  c : Nat
  d : Nat
  e : Nat
  f : Nat
  g : Nat
  h : Nat

def roundStep (st : Hash8) (kw : Nat × Nat) : Hash8 :=
  let t1 := u32 (st.h + bigS1 st.e + chf st.e st.f st.g + kw.1 + kw.2)
  let t2 := u32 (bigS0 st.a + majf st.a st.b st.c)
  ⟨u32 (t1 + t2), st.a, st.b, st.c, u32 (st.d + t1), st.e, st.f, st.g⟩

/-- Big-endian 4-byte groups to 32-bit words. -/
def toWords : List Nat → List Nat
  | b1 :: b2 :: b3 :: b4 :: rest =>
    (((b1 * 256 + b2) * 256 + b3) * 256 + b4) :: toWords rest
  | _ => []

def compressBlock (hs : List Nat) (block : List Nat) : List Nat :=
  let ws := (extendN 48 (toWords block).reverse).reverse
  let g := fun (i : Nat) => hs.getD i 0
  let st0 : Hash8 := ⟨g 0, g 1, g 2, g 3, g 4, g 5, g 6, g 7⟩
  let st := (sha256K.zip ws).foldl roundStep st0
  [u32 (g 0 + st.a), u32 (g 1 + st.b), u32 (g 2 + st.c), u32 (g 3 + st.d),
   u32 (g 4 + st.e), u32 (g 5 + st.f), u32 (g 6 + st.g), u32 (g 7 + st.h)]

def sha256Blocks : Nat → List Nat → List Nat → List Nat
  | 0, hs, _ => hs
  | n + 1, hs, bytes => sha256Blocks n (compressBlock hs (bytes.take 64)) (bytes.drop 64)

/-- Big-endian 8-byte encoding of the bit length. -/
def lenBytes8 (n : Nat) : List Nat :=
  [(n >>> 56) % 256, (n >>> 48) % 256, (n >>> 40) % 256, (n >>> 32) % 256,
   (n >>> 24) % 256, (n >>> 16) % 256, (n >>> 8) % 256, n % 256]

def wordBytes (w : Nat) : List Nat :=
  [(w >>> 24) % 256, (w >>> 16) % 256, (w >>> 8) % 256, w % 256]

def sha256 (msg : List Nat) : List Nat :=
  let len := msg.length
  let k := (64 - ((len + 9) % 64)) % 64
  let padded := msg ++ 128 :: (List.replicate k 0 ++ lenBytes8 (len * 8))
  ((sha256Blocks (padded.length / 64) sha256H0 padded).map wordBytes).flatten

/-- HMAC-SHA256 with block size 64 (`crypto/hmac` with `sha256.New`). -/
def hmacSha256 (key msg : List Nat) : List Nat :=
  let key := if 64 < key.length then sha256 key else key
  let pad := key ++ List.replicate (64 - key.length) 0
  sha256 ((pad.map (fun b => b ^^^ 92)) ++ sha256 ((pad.map (fun b => b ^^^ 54)) ++ msg))

/-! base64url without padding (`base64.RawURLEncoding`) -/

/-- Value of sextet `n` in the URL-safe base64 alphabet. -/
def b64char (n : Nat) : Nat :=
  if n < 26 then 65 + n
  else if n < 52 then 97 + (n - 26)
  else if n < 62 then 48 + (n - 52)
  else if n = 62 then 45
  else 95

/-- Inverse alphabet lookup; `none` on bytes outside the alphabet. -/
def b64inv (c : Nat) : Option Nat :=
  if 65 ≤ c ∧ c ≤ 90 then some (c - 65)
  else if 97 ≤ c ∧ c ≤ 122 then some (c - 97 + 26)
  else if 48 ≤ c ∧ c ≤ 57 then some (c - 48 + 52)
  else if c = 45 then some 62
  else if c = 95 then some 63
  else none

def b64encode : List Nat → List Nat
  | b1 :: b2 :: b3 :: rest =>
    b64char (b1 / 4) :: b64char (b1 % 4 * 16 + b2 / 16) ::
    b64char (b2 % 16 * 4 + b3 / 64) :: b64char (b3 % 64) :: b64encode rest
  | [b1, b2] => [b64char (b1 / 4), b64char (b1 % 4 * 16 + b2 / 16), b64char (b2 % 16 * 4)]
  | [b1] => [b64char (b1 / 4), b64char (b1 % 4 * 16)]
  | [] => []

def b64decode : List Nat → Option (List Nat)
  | c1 :: c2 :: c3 :: c4 :: rest => do
    let s1 ← b64inv c1
    let s2 ← b64inv c2
    let s3 ← b64inv c3
    let s4 ← b64inv c4
    let tail ← b64decode rest
    pure ((s1 * 4 + s2 / 16) :: (s2 % 16 * 16 + s3 / 4) :: (s3 % 4 * 64 + s4) :: tail)
  | [c1, c2, c3] => do
    let s1 ← b64inv c1
    let s2 ← b64inv c2
    let s3 ← b64inv c3
    pure [s1 * 4 + s2 / 16, s2 % 16 * 16 + s3 / 4]
  | [c1, c2] => do
    let s1 ← b64inv c1
    let s2 ← b64inv c2
    pure [s1 * 4 + s2 / 16]
  | [_] => none
  | [] => some []

/-! Civil time (`time.Time` / RFC 3339 at second granularity)

`time.Time` values are seconds since 0001-01-01T00:00:00 UTC.
`MarshalJSON` renders RFC 3339 (`"YYYY-MM-DDTHH:MM:SSZ"`); parsing is its
inverse on such strings. -/

/-- Days since 0001-01-01 to a `(year, month, day)` civil date
(proleptic Gregorian). -/
def daysToCivil (z : Nat) : Nat × Nat × Nat :=
  let z := z + 306
  let era := z / 146097
  let doe := z % 146097
  let yoe := (doe - doe / 1460 + doe / 36524 - doe / 146096) / 365
  let y := yoe + era * 400
  let doy := doe - (365 * yoe + yoe / 4 - yoe / 100)
  let mp := (5 * doy + 2) / 153
  let d := doy - (153 * mp + 2) / 5 + 1
  let m := if mp < 10 then mp + 3 else mp - 9
  (if m ≤ 2 then y + 1 else y, m, d)

/-- Civil `(year, month, day)` back to days since 0001-01-01. -/
def civilToDays (y m d : Nat) : Nat :=
  let yy := if m ≤ 2 then y - 1 else y
  let era := yy / 400
  let yoe := yy % 400
  let mp := if m ≤ 2 then m + 9 else m - 3
  let doy := (153 * mp + 2) / 5 + d - 1
  let doe := yoe * 365 + yoe / 4 - yoe / 100 + doy
  era * 146097 + doe - 306

def dig2 (n : Nat) : List Nat := [48 + n / 10 % 10, 48 + n % 10]

def dig4 (n : Nat) : List Nat :=
  [48 + n / 1000 % 10, 48 + n / 100 % 10, 48 + n / 10 % 10, 48 + n % 10]

def renderTime (t : Nat) : List Nat :=
  let days := t / 86400
  let secs := t % 86400
  let c := daysToCivil days
  dig4 c.1 ++ 45 :: dig2 c.2.1 ++ 45 :: dig2 c.2.2 ++ 84 :: dig2 (secs / 3600) ++
    58 :: dig2 (secs / 60 % 60) ++ 58 :: dig2 (secs % 60) ++ [90]

def digitVal (b : Nat) : Option Nat :=
  if 48 ≤ b ∧ b ≤ 57 then some (b - 48) else none

def expectB (b : Nat) : List Nat → Option (List Nat)
  | [] => none
  | c :: rest => if c = b then some rest else none

def parse2 : List Nat → Option (Nat × List Nat)
  | a :: b :: rest => do
    let x ← digitVal a
    let y ← digitVal b
    pure (x * 10 + y, rest)
  | _ => none

def parse4 : List Nat → Option (Nat × List Nat)
  | a :: b :: c :: d :: rest => do
    let x ← digitVal a
    let y ← digitVal b
    let z ← digitVal c
    let w ← digitVal d
    pure (((x * 10 + y) * 10 + z) * 10 + w, rest)
  | _ => none

def parseTime (s : List Nat) : Option (Nat × List Nat) := do
  let (y, s) ← parse4 s
  let s ← expectB 45 s
  let (mo, s) ← parse2 s
  let s ← expectB 45 s
  let (d, s) ← parse2 s
  let s ← expectB 84 s
  let (h, s) ← parse2 s
  let s ← expectB 58 s
  let (mi, s) ← parse2 s
  let s ← expectB 58 s
  let (sec, s) ← parse2 s
  let s ← expectB 90 s
  pure (civilToDays y mo d * 86400 + h * 3600 + mi * 60 + sec, s)

/-! JSON for `token.Claims` (`encoding/json`)

`marshalClaims` reproduces `json.Marshal` on the `Claims` struct of
`internal/domain/token`: fields in declaration order with their `json`
tags, `omitempty` dropping empty strings / slices / maps (but never the
`time.Time` fields, which a non-pointer struct's `omitempty` cannot
drop), strings escaped as Go's encoder does.  `Metadata` is restricted to
string values and stands for the map with its keys in Go's (sorted)
marshalling order.  `parseClaims` embeds `json.Unmarshal` on the
documents this marshaller emits. -/

structure Claims where
  Subject : List Nat
  Issuer : List Nat
  Audience : List Nat
  ExpiresAt : Nat
  IssuedAt : Nat
  NotBefore : Nat
  TokenID : List Nat
  Roles : List (List Nat)
  Metadata : List (List Nat × List Nat)
deriving DecidableEq

def hexDigit (n : Nat) : Nat := if n < 10 then 48 + n else 97 + (n - 10)

def escapeByte (b : Nat) : List Nat :=
  if b = 34 then [92, 34]
  else if b = 92 then [92, 92]
  else if b = 60 then ascii "\\u003c"
  else if b = 62 then ascii "\\u003e"
  else if b = 38 then ascii "\\u0026"
  else if b = 10 then [92, 110]
  else if b = 13 then [92, 114]
  else if b = 9 then [92, 116]
  else if b < 32 then ascii "\\u00" ++ [hexDigit (b / 16), hexDigit (b % 16)]
  else [b]

def escStr : List Nat → List Nat
  | [] => []
  | b :: rest => escapeByte b ++ escStr rest

def jstr (s : List Nat) : List Nat := 34 :: escStr s ++ [34]

def jtime (t : Nat) : List Nat := 34 :: renderTime t ++ [34]

def jpair (p : List Nat × List Nat) : List Nat := jstr p.1 ++ 58 :: jstr p.2

def jarr : List (List Nat) → List Nat
  | [] => ascii "[]"
  | r :: rs => 91 :: (jstr r ++ ((rs.map (fun x => 44 :: jstr x)).flatten ++ [93]))

def jobj : List (List Nat × List Nat) → List Nat
  | [] => ascii "\x7b\x7d"
  | p :: ps => 123 :: (jpair p ++ ((ps.map (fun q => 44 :: jpair q)).flatten ++ [125]))

def keySub : List Nat := ascii "\x7b\"sub\":"

def keyIss : List Nat := ascii ",\"iss\":"

def keyAud : List Nat := ascii ",\"aud\":"

def keyExp : List Nat := ascii ",\"exp\":"

def keyIat : List Nat := ascii ",\"iat\":"

def keyNbf : List Nat := ascii ",\"nbf\":"

def keyJti : List Nat := ascii ",\"jti\":"

def keyRoles : List Nat := ascii ",\"roles\":"

def keyMeta : List Nat := ascii ",\"metadata\":"

def marshalClaims (c : Claims) : List Nat :=
  keySub ++ jstr c.Subject
  ++ (keyIss ++ jstr c.Issuer)
  ++ (if c.Audience = [] then [] else keyAud ++ jstr c.Audience)
  ++ (keyExp ++ jtime c.ExpiresAt)
  ++ (keyIat ++ jtime c.IssuedAt)
  ++ (keyNbf ++ jtime c.NotBefore)
  ++ (if c.TokenID = [] then [] else keyJti ++ jstr c.TokenID)
  ++ (if c.Roles = [] then [] else keyRoles ++ jarr c.Roles)
  ++ (if c.Metadata = [] then [] else keyMeta ++ jobj c.Metadata)
  ++ [125]

/-- `json.Marshal` of the header map; Go marshals map keys sorted. -/
def headerJson : List Nat := ascii "\x7b\"alg\":\"HS256\",\"typ\":\"JWT\"\x7d"

def unhex (b : Nat) : Option Nat :=
  if 48 ≤ b ∧ b ≤ 57 then some (b - 48)
  else if 97 ≤ b ∧ b ≤ 102 then some (b - 97 + 10)
  else if 65 ≤ b ∧ b ≤ 70 then some (b - 65 + 10)
  else none

/-- Body of a JSON string after the opening quote: bytes up to the closing
quote, undoing escapes. -/
def parseStrBytes : List Nat → Option (List Nat × List Nat)
  | [] => none
  | b :: rest =>
    if b = 34 then some ([], rest)
    else if b = 92 then
      match rest with
      | [] => none
      | e :: rest' =>
        if e = 117 then
          match rest' with
          | h1 :: h2 :: h3 :: h4 :: rest2 => do
            let v1 ← unhex h1
            let v2 ← unhex h2
            let v3 ← unhex h3
            let v4 ← unhex h4
            let (s, r) ← parseStrBytes rest2
            pure ((((v1 * 16 + v2) * 16 + v3) * 16 + v4) :: s, r)
          | _ => none
        else do
          let c ← (if e = 34 then some 34 else if e = 92 then some 92
            else if e = 47 then some 47 else if e = 110 then some 10
            else if e = 114 then some 13 else if e = 116 then some 9
            else if e = 98 then some 8 else if e = 102 then some 12 else none)
          let (s, r) ← parseStrBytes rest'
          pure (c :: s, r)
    else do
      let (s, r) ← parseStrBytes rest
      pure (b :: s, r)

def parseJStr : List Nat → Option (List Nat × List Nat)
  | [] => none
  | c :: rest => if c = 34 then parseStrBytes rest else none

def parseJTime (s : List Nat) : Option (Nat × List Nat) := do
  let s ← expectB 34 s
  let (t, s) ← parseTime s
  let s ← expectB 34 s
  pure (t, s)

def parseStrListMore : Nat → List Nat → Option (List (List Nat) × List Nat)
  | 0, _ => none
  | fuel + 1, s =>
    match s with
    | [] => none
    | b :: rest =>
      if b = 93 then some ([], rest)
      else if b = 44 then do
        let (v, s1) ← parseJStr rest
        let (vs, s2) ← parseStrListMore fuel s1
        pure (v :: vs, s2)
      else none

def parseStrList : List Nat → Option (List (List Nat) × List Nat)
  | [] => none
  | b :: rest =>
    if b = 91 then do
      let (v, s1) ← parseJStr rest
      let (vs, s2) ← parseStrListMore s1.length s1
      pure (v :: vs, s2)
    else none

def parsePair (s : List Nat) : Option ((List Nat × List Nat) × List Nat) := do
  let (k, s) ← parseJStr s
  let s ← expectB 58 s
  let (v, s) ← parseJStr s
  pure ((k, v), s)

def parseObjMore : Nat → List Nat → Option (List (List Nat × List Nat) × List Nat)
  | 0, _ => none
  | fuel + 1, s =>
    match s with
    | [] => none
    | b :: rest =>
      if b = 125 then some ([], rest)
      else if b = 44 then do
        let (p, s1) ← parsePair rest
        let (ps, s2) ← parseObjMore fuel s1
        pure (p :: ps, s2)
      else none

def parseObj : List Nat → Option (List (List Nat × List Nat) × List Nat)
  | [] => none
  | b :: rest =>
    if b = 123 then do
      let (p, s1) ← parsePair rest
      let (ps, s2) ← parseObjMore s1.length s1
      pure (p :: ps, s2)
    else none

/-- Optional string field: on the key, parse its value; otherwise Go's
zero value `""` with the input untouched. -/
def parseOptStr (key s : List Nat) : Option (List Nat × List Nat) :=
  match stripPre key s with
  | some s1 => parseJStr s1
  | none => some ([], s)

def parseOptArr (key s : List Nat) : Option (List (List Nat) × List Nat) :=
  match stripPre key s with
  | some s1 => parseStrList s1
  | none => some ([], s)

def parseOptObj (key s : List Nat) : Option (List (List Nat × List Nat) × List Nat) :=
  match stripPre key s with
  | some s1 => parseObj s1
  | none => some ([], s)

/-- Stages of the claims-document parser, continuation per field; the
whole document must be consumed (`json.Unmarshal` rejects trailing
data). -/
def pcFinish (sub iss aud : List Nat) (ex ia nb : Nat) (jti : List Nat)
    (roles : List (List Nat)) (meta : List (List Nat × List Nat)) (s : List Nat) :
    Option Claims :=
  match s with
  | [b] => if b = 125 then some ⟨sub, iss, aud, ex, ia, nb, jti, roles, meta⟩ else none
  | _ => none

def pcMeta (sub iss aud : List Nat) (ex ia nb : Nat) (jti : List Nat)
    (roles : List (List Nat)) (s : List Nat) : Option Claims :=
  Option.bind (parseOptObj keyMeta s) fun x => pcFinish sub iss aud ex ia nb jti roles x.1 x.2

def pcRoles (sub iss aud : List Nat) (ex ia nb : Nat) (jti : List Nat) (s : List Nat) :
    Option Claims :=
  Option.bind (parseOptArr keyRoles s) fun x => pcMeta sub iss aud ex ia nb jti x.1 x.2

def pcJti (sub iss aud : List Nat) (ex ia nb : Nat) (s : List Nat) : Option Claims :=
  Option.bind (parseOptStr keyJti s) fun x => pcRoles sub iss aud ex ia nb x.1 x.2

def pcNbf (sub iss aud : List Nat) (ex ia : Nat) (s : List Nat) : Option Claims :=
  Option.bind (stripPre keyNbf s) fun s1 =>
    Option.bind (parseJTime s1) fun x => pcJti sub iss aud ex ia x.1 x.2

def pcIat (sub iss aud : List Nat) (ex : Nat) (s : List Nat) : Option Claims :=
  Option.bind (stripPre keyIat s) fun s1 =>
    Option.bind (parseJTime s1) fun x => pcNbf sub iss aud ex x.1 x.2

def pcExp (sub iss aud : List Nat) (s : List Nat) : Option Claims :=
  Option.bind (stripPre keyExp s) fun s1 =>
    Option.bind (parseJTime s1) fun x => pcIat sub iss aud x.1 x.2

def pcAud (sub iss : List Nat) (s : List Nat) : Option Claims :=
  Option.bind (parseOptStr keyAud s) fun x => pcExp sub iss x.1 x.2

def pcIss (sub : List Nat) (s : List Nat) : Option Claims :=
  Option.bind (stripPre keyIss s) fun s1 =>
    Option.bind (parseJStr s1) fun x => pcAud sub x.1 x.2

def parseClaims (j : List Nat) : Option Claims :=
  Option.bind (stripPre keySub j) fun s1 =>
    Option.bind (parseJStr s1) fun x => pcIss x.1 x.2

/-! `pkg/jwt`: token generation and validation -/

namespace Jwt

/-- `jwt.Config`; the embedded service carries exactly its configuration. -/
structure Config where
  Secret : List Nat
  AccessTokenTTL : Nat
  RefreshTokenTTL : Nat
  Issuer : List Nat
deriving DecidableEq

/-- `jwt.NewService`: rejects an empty secret, otherwise returns the
service wrapping the config. -/
def NewService (cfg : Config) : Option Config :=
  if cfg.Secret = [] then none else some cfg

inductive TokenType
  | access
  | refresh
deriving DecidableEq

structure Token where
  Value : List Nat
  Typ : TokenType
  ExpiresAt : Nat
  IssuedAt : Nat
deriving DecidableEq

/-- `jwtService.sign`: base64url of the HMAC-SHA256 of the message under
the configured secret. -/
def sign (cfg : Config) (message : List Nat) : List Nat :=
  b64encode (hmacSha256 cfg.Secret message)

/-- The marshal-success path of `jwtService.Generate` at instant `now`:
the token built once `json.Marshal` has succeeded.  The full embedding,
with the `json.Marshal` error branch, is `GenerateE` below; the two agree
whenever the stamped claims are marshallable (`GenerateE_ok`). -/
def Generate (cfg : Config) (claims : Claims) (now : Nat) : Token :=
  let expiresAt := now + cfg.AccessTokenTTL
  let claims := { claims with Issuer := cfg.Issuer, IssuedAt := now, ExpiresAt := expiresAt }
  let headerEncoded := b64encode headerJson
  let claimsEncoded := b64encode (marshalClaims claims)
  let message := headerEncoded ++ 46 :: claimsEncoded
  let signature := sign cfg message
  ⟨message ++ 46 :: signature, TokenType.access, expiresAt, now⟩

/-- `json.Marshal` on a claims value including its error branch:
`time.Time.MarshalJSON` rejects a year outside [0, 9999] (here: above
9999, since the `Nat` instants start at year 1), so marshalling fails
exactly when one of the three rendered times — expires-at, issued-at, or
the caller-supplied not-before — is out of range. -/
def marshalClaimsE (c : Claims) : Option (List Nat) :=
  if (daysToCivil (c.ExpiresAt / 86400)).1 < 10000
      ∧ (daysToCivil (c.IssuedAt / 86400)).1 < 10000
      ∧ (daysToCivil (c.NotBefore / 86400)).1 < 10000
  then some (marshalClaims c) else none

/-- `jwtService.Generate` at instant `now`, with its `json.Marshal`
error branch: stamps the claims, marshals them (which can fail, e.g. for
a caller-supplied `NotBefore` in year 10000), and on success builds the
signed token of `Generate`. -/
def GenerateE (cfg : Config) (claims : Claims) (now : Nat) : Option Token :=
  let expiresAt := now + cfg.AccessTokenTTL
  let claims := { claims with Issuer := cfg.Issuer, IssuedAt := now, ExpiresAt := expiresAt }
  (marshalClaimsE claims).map (fun claimsJSON =>
    let headerEncoded := b64encode headerJson
    let claimsEncoded := b64encode claimsJSON
    let message := headerEncoded ++ 46 :: claimsEncoded
    ⟨message ++ 46 :: sign cfg message, TokenType.access, expiresAt, now⟩)

/-- The `json.Marshal` precondition of a `Generate` call: every time the
stamped claims render — `now + TTL`, `now`, and the caller's not-before —
has a year within Go's accepted range. -/
def MarshalTimesOk (cfg : Config) (c : Claims) (now : Nat) : Prop :=
  (daysToCivil ((now + cfg.AccessTokenTTL) / 86400)).1 < 10000
    ∧ (daysToCivil (now / 86400)).1 < 10000
    ∧ (daysToCivil (c.NotBefore / 86400)).1 < 10000

instance (cfg : Config) (c : Claims) (now : Nat) : Decidable (MarshalTimesOk cfg c now) := by
  unfold MarshalTimesOk
  infer_instance

inductive ValidateErr
  | invalidFormat
  | invalidSignature
  | decodeClaims
  | unmarshalClaims
  | expired
deriving DecidableEq

/-- `jwtService.Validate` at instant `now`: split on `.` into exactly
three segments, recompute and compare the signature, base64-decode and
unmarshal the claims, reject when `now` is after `ExpiresAt`. -/
def Validate (cfg : Config) (tokenString : List Nat) (now : Nat) : Except ValidateErr Claims :=
  match splitByte 46 tokenString with
  | [headerEncoded, claimsEncoded, signature] =>
    let message := headerEncoded ++ 46 :: claimsEncoded
    let expectedSignature := sign cfg message
    if signature = expectedSignature then
      match b64decode claimsEncoded with
      | none => .error .decodeClaims
      | some claimsJSON =>
        match parseClaims claimsJSON with
        | none => .error .unmarshalClaims
        | some claims =>
          if claims.ExpiresAt < now then .error .expired else .ok claims
    else .error .invalidSignature
  | _ => .error .invalidFormat

end Jwt

/-! `internal/domain/service` and `internal/service/registry`

Instants here are `Int` seconds so that `time.Since` (which may be
negative) keeps Go's semantics.  The repository's `List` snapshot is
modelled as the list of records it yields. -/

namespace Reg

inductive Status
  | healthy
  | unhealthy
  | unknown
deriving DecidableEq

structure ServiceRecord where
  ID : List Nat
  Name : List Nat
  Version : List Nat
  Endpoints : List (List Nat)
  Capabilities : List (List Nat)
  Metadata : List (List Nat × List Nat)
  Status : Status
  RegisteredAt : Int
  LastHeartbeat : Int
  HealthCheckURL : List Nat
deriving DecidableEq

/-- `Service.IsHealthy` of `internal/domain/service` at instant `now`:
not already unhealthy, and the last heartbeat is younger than `timeout`
(`time.Since(s.LastHeartbeat) < timeout`). -/
def IsHealthy (s : ServiceRecord) (timeout now : Int) : Bool :=
  if s.Status = Status.unhealthy then false else decide (now - s.LastHeartbeat < timeout)

/-- `Service.MarkUnhealthy`. -/
def MarkUnhealthy (s : ServiceRecord) : ServiceRecord :=
  { s with Status := Status.unhealthy }

/-- `Service.UpdateHeartbeat` at instant `now`. -/
def UpdateHeartbeat (s : ServiceRecord) (now : Int) : ServiceRecord :=
  { s with LastHeartbeat := now, Status := Status.healthy }

/-- `registry.hasCapability`: an empty capability matches everything,
otherwise exact membership in the record's capability list. -/
def hasCapability (svc : ServiceRecord) (capability : List Nat) : Bool :=
  if capability = [] then true else decide (capability ∈ svc.Capabilities)

/-- `registry.Service.Discover` over the repository snapshot `services`:
keeps records that are healthy and match the capability, in order. -/
def Discover (services : List ServiceRecord) (capability : List Nat) : List ServiceRecord :=
  services.filter (fun svc => svc.Status = Status.healthy && hasCapability svc capability)

/-- `registry.Service.Register` at instant `now`: stamps
`RegisteredAt = LastHeartbeat = now`, `Status = healthy` before the
repository upsert. -/
def RegisterStamp (svc : ServiceRecord) (now : Int) : ServiceRecord :=
  { svc with RegisteredAt := now, LastHeartbeat := now, Status := Status.healthy }

/-- One record's treatment by `performHealthChecks` restricted to the
heartbeat-only path (no health-check URL).  Returns the record as left in
the repository and whether a `repo.Update` write was issued.  Records with
a health-check URL dispatch an HTTP probe concurrently and are returned
unchanged by the sweep itself. -/
def sweepRecord (interval now : Int) (svc : ServiceRecord) : ServiceRecord × Bool :=
  if svc.HealthCheckURL = [] then
    if IsHealthy svc (interval * 2) now then (svc, false)
    else (MarkUnhealthy svc, true)
  else (svc, false)

/-- The heartbeat-only part of one health-monitor sweep over the listed
records. -/
def performHealthChecks (interval now : Int) (services : List ServiceRecord) :
    List (ServiceRecord × Bool) :=
  services.map (sweepRecord interval now)

end Reg

/-! `internal/domain/session`, in-memory `SessionRepository`, and
`internal/service/session`

The session table is an association list keyed by id (the extensional
content of the Go map); instants are `Int` seconds. -/

namespace Sess

structure Session where
  ID : List Nat
  UserID : List Nat
  ServiceID : List Nat
  Data : List (List Nat × List Nat)
  CreatedAt : Int
  ExpiresAt : Int
  UpdatedAt : Int
deriving DecidableEq

/-- `Session.IsExpired` at instant `now`: `time.Now().After(ExpiresAt)`. -/
def IsExpired (s : Session) (now : Int) : Bool := decide (s.ExpiresAt < now)

/-- `Session.Touch` at instant `now`. -/
def Touch (s : Session) (now : Int) : Session := { s with UpdatedAt := now }

abbrev Store := List (List Nat × Session)

def lookupA (m : Store) (id : List Nat) : Option Session :=
  match m with
  | [] => none
  | p :: rest => if p.1 = id then some p.2 else lookupA rest id

inductive Err
  | notFound
  | expired
  | alreadyExists
deriving DecidableEq

/-- In-memory `SessionRepository.Get`. -/
def repoGet (m : Store) (id : List Nat) : Except Err Session :=
  match lookupA m id with
  | none => Except.error Err.notFound
  | some s => Except.ok s

/-- In-memory `SessionRepository.Update`: fails on an unknown id,
otherwise replaces the record stored under `sess.ID`. -/
def repoUpdate (m : Store) (sess : Session) : Except Err Store :=
  match lookupA m sess.ID with
  | none => Except.error Err.notFound
  | some _ => Except.ok (m.map (fun p => if p.1 = sess.ID then (p.1, sess) else p))

/-- In-memory `SessionRepository.DeleteExpired` at instant `now`: removes
every session with `ExpiresAt.Before(now)` and counts the removals. -/
def DeleteExpired (now : Int) : Store → Store × Nat
  | [] => ([], 0)
  | p :: rest =>
    let r := DeleteExpired now rest
    if p.2.ExpiresAt < now then (r.1, r.2 + 1) else (p :: r.1, r.2)

/-- `session.Service.Get` at instant `now`: repository fetch, then the
lazy expiry check.  It issues no repository write, so the store is
returned unchanged. -/
def serviceGet (m : Store) (id : List Nat) (now : Int) : Except Err Session × Store :=
  match repoGet m id with
  | Except.error e => (Except.error e, m)
  | Except.ok sess =>
    if IsExpired sess now then (Except.error Err.expired, m) else (Except.ok sess, m)

/-- `session.Service.Update` at instant `now`: re-read through
`serviceGet`, replace the data payload, `Touch`, write back. -/
def serviceUpdate (m : Store) (id : List Nat) (data : List (List Nat × List Nat)) (now : Int) :
    Except Err Unit × Store :=
  match (serviceGet m id now).1 with
  | Except.error e => (Except.error e, m)
  | Except.ok sess =>
    let sess := Touch { sess with Data := data } now
    match repoUpdate m sess with
    | Except.error e => (Except.error e, m)
    | Except.ok m2 => (Except.ok (), m2)

end Sess

/-! Lemmas: `strings.Split` -/

theorem splitByte_ne_nil (sep : Nat) (l : List Nat) : splitByte sep l ≠ [] := by
  cases l with
  | nil => simp [splitByte]
  | cons b rest =>
    simp only [splitByte]
    rcases h : splitByte sep rest with _ | ⟨s, ss⟩
    · simp
    · by_cases hb : b = sep <;> simp [hb]

theorem splitByte_noSep (sep : Nat) (a : List Nat) (ha : sep ∉ a) :
    splitByte sep a = [a] := by
  induction a with
  | nil => rfl
  | cons b rest ih =>
    have hb : b ≠ sep := fun h => ha (h ▸ List.mem_cons_self b rest)
    have hrest : sep ∉ rest := fun h => ha (List.mem_cons_of_mem b h)
    simp only [splitByte, ih hrest]
    simp [hb]

theorem splitByte_append_sep (sep : Nat) (a r : List Nat) (ha : sep ∉ a) :
    splitByte sep (a ++ sep :: r) = a :: splitByte sep r := by
  induction a with
  | nil =>
    simp only [List.nil_append, splitByte]
    rcases h : splitByte sep r with _ | ⟨s, ss⟩
    · exact absurd h (splitByte_ne_nil sep r)
    · simp
  | cons b rest ih =>
    have hb : b ≠ sep := fun h => ha (h ▸ List.mem_cons_self b rest)
    have hrest : sep ∉ rest := fun h => ha (List.mem_cons_of_mem b h)
    rw [List.cons_append, splitByte, ih hrest]
    simp [hb]

theorem splitByte_three (sep : Nat) (a b c : List Nat)
    (ha : sep ∉ a) (hb : sep ∉ b) (hc : sep ∉ c) :
    splitByte sep (a ++ sep :: (b ++ sep :: c)) = [a, b, c] := by
  rw [splitByte_append_sep sep a _ ha, splitByte_append_sep sep b _ hb,
    splitByte_noSep sep c hc]

/-! Lemmas: base64url -/

theorem b64inv_b64char : ∀ s, s < 64 → b64inv (b64char s) = some s := by decide

theorem b64char_ne_dot (s : Nat) : b64char s ≠ 46 := by
  simp only [b64char]
  split <;> [omega; (split <;> [omega; (split <;> [omega; (split <;> omega)])])]

theorem b64char_lt (s : Nat) : b64char s < 128 := by
  simp only [b64char]
  split <;> [omega; (split <;> [omega; (split <;> [omega; (split <;> omega)])])]

theorem mem_b64encode (c : Nat) (l : List Nat) (h : c ∈ b64encode l) :
    ∃ s, c = b64char s := by
  induction l using b64encode.induct with
  | case1 b1 b2 b3 rest ih =>
    simp only [b64encode, List.mem_cons] at h
    rcases h with h | h | h | h | h
    · exact ⟨_, h⟩
    · exact ⟨_, h⟩
    · exact ⟨_, h⟩
    · exact ⟨_, h⟩
    · exact ih h
  | case2 b1 b2 =>
    simp only [b64encode, List.mem_cons] at h
    rcases h with h | h | h | h <;> first | exact ⟨_, h⟩ | simp at h
  | case3 b1 =>
    simp only [b64encode, List.mem_cons] at h
    rcases h with h | h | h <;> first | exact ⟨_, h⟩ | simp at h
  | case4 => simp [b64encode] at h

theorem b64encode_no_dot (l : List Nat) : 46 ∉ b64encode l := by
  intro h
  obtain ⟨s, hs⟩ := mem_b64encode 46 l h
  exact b64char_ne_dot s hs.symm

theorem b64encode_lt (c : Nat) (l : List Nat) (h : c ∈ b64encode l) : c < 128 := by
  obtain ⟨s, hs⟩ := mem_b64encode c l h
  exact hs ▸ b64char_lt s

theorem b64decode_b64encode (l : List Nat) (h : ∀ b ∈ l, b < 256) :
    b64decode (b64encode l) = some l := by
  induction l using b64encode.induct with
  | case1 b1 b2 b3 rest ih =>
    have h1 : b1 < 256 := h b1 (by simp)
    have h2 : b2 < 256 := h b2 (by simp)
    have h3 : b3 < 256 := h b3 (by simp)
    have hrest : ∀ b ∈ rest, b < 256 := fun b hb => h b (by simp [hb])
    simp only [b64encode, b64decode,
      b64inv_b64char _ (by omega : b1 / 4 < 64),
      b64inv_b64char _ (by omega : b1 % 4 * 16 + b2 / 16 < 64),
      b64inv_b64char _ (by omega : b2 % 16 * 4 + b3 / 64 < 64),
      b64inv_b64char _ (by omega : b3 % 64 < 64),
      ih hrest, Option.bind_some, Option.some_bind]
    refine congrArg some ?_
    refine congrArg₂ _ (by omega) (congrArg₂ _ (by omega) (congrArg₂ _ (by omega) rfl))
  | case2 b1 b2 =>
    have h1 : b1 < 256 := h b1 (by simp)
    have h2 : b2 < 256 := h b2 (by simp)
    simp only [b64encode, b64decode,
      b64inv_b64char _ (by omega : b1 / 4 < 64),
      b64inv_b64char _ (by omega : b1 % 4 * 16 + b2 / 16 < 64),
      b64inv_b64char _ (by omega : b2 % 16 * 4 < 64), Option.some_bind]
    refine congrArg some ?_
    refine congrArg₂ _ (by omega) (congrArg₂ _ (by omega) rfl)
  | case3 b1 =>
    have h1 : b1 < 256 := h b1 (by simp)
    simp only [b64encode, b64decode,
      b64inv_b64char _ (by omega : b1 / 4 < 64),
      b64inv_b64char _ (by omega : b1 % 4 * 16 < 64), Option.some_bind]
    refine congrArg some (congrArg₂ _ (by omega) rfl)
  | case4 => rfl

/-! Lemmas: RFC 3339 rendering round-trip -/

/-- The civil-date round-trip side condition: `t`'s civil date maps back
to the same day count, with components inside the fixed-width digit
ranges.  It holds for every second-valued instant with year ≤ 9999 and is
discharged by `decide` at each concrete instant used below. -/
def goodTime (t : Nat) : Prop :=
  civilToDays (daysToCivil (t / 86400)).1 (daysToCivil (t / 86400)).2.1
      (daysToCivil (t / 86400)).2.2 = t / 86400
    ∧ (daysToCivil (t / 86400)).1 < 10000
    ∧ (daysToCivil (t / 86400)).2.1 < 100
    ∧ (daysToCivil (t / 86400)).2.2 < 100

instance (t : Nat) : Decidable (goodTime t) := by unfold goodTime; infer_instance

theorem digitVal_digit (n : Nat) (h : n < 10) : digitVal (48 + n) = some n := by
  unfold digitVal
  rw [if_pos (by omega)]
  simp

theorem expectB_cons (b : Nat) (rest : List Nat) : expectB b (b :: rest) = some rest := by
  simp [expectB]

theorem parse2_dig2 (n : Nat) (h : n < 100) (rest : List Nat) :
    parse2 (dig2 n ++ rest) = some (n, rest) := by
  have e : n / 10 % 10 * 10 + n % 10 = n := by omega
  simp only [dig2, List.cons_append, List.nil_append, parse2,
    digitVal_digit _ (by omega : n / 10 % 10 < 10), digitVal_digit _ (by omega : n % 10 < 10),
    Option.bind_eq_bind, Option.some_bind, Option.pure_def, e]

theorem parse4_dig4 (n : Nat) (h : n < 10000) (rest : List Nat) :
    parse4 (dig4 n ++ rest) = some (n, rest) := by
  have e : ((n / 1000 % 10 * 10 + n / 100 % 10) * 10 + n / 10 % 10) * 10 + n % 10 = n := by
    omega
  simp only [dig4, List.cons_append, List.nil_append, parse4,
    digitVal_digit _ (by omega : n / 1000 % 10 < 10),
    digitVal_digit _ (by omega : n / 100 % 10 < 10),
    digitVal_digit _ (by omega : n / 10 % 10 < 10),
    digitVal_digit _ (by omega : n % 10 < 10),
    Option.bind_eq_bind, Option.some_bind, Option.pure_def, e]

set_option maxHeartbeats 1000000 in
theorem parseTime_renderTime (t : Nat) (h : goodTime t) (rest : List Nat) :
    parseTime (renderTime t ++ rest) = some (t, rest) := by
  obtain ⟨hrt, hy, hm, hd⟩ := h
  rw [renderTime]
  simp only [List.append_assoc, List.cons_append]
  rw [parseTime]
  rw [parse4_dig4 _ hy]
  simp only [Option.bind_eq_bind, Option.some_bind, Option.pure_def, expectB_cons,
    parse2_dig2 _ hm, parse2_dig2 _ hd,
    parse2_dig2 _ (by omega : t % 86400 / 3600 < 100),
    parse2_dig2 _ (by omega : t % 86400 / 60 % 60 < 100),
    parse2_dig2 _ (by omega : t % 86400 % 60 < 100), List.nil_append]
  have e2 : civilToDays (daysToCivil (t / 86400)).1 (daysToCivil (t / 86400)).2.1
      (daysToCivil (t / 86400)).2.2 * 86400
      + t % 86400 / 3600 * 3600 + t % 86400 / 60 % 60 * 60 + t % 86400 % 60 = t := by
    rw [hrt]; omega
  rw [e2]

theorem parseJTime_jtime (t : Nat) (h : goodTime t) (rest : List Nat) :
    parseJTime (jtime t ++ rest) = some (t, rest) := by
  have e : jtime t ++ rest = 34 :: (renderTime t ++ 34 :: rest) := by
    simp [jtime]
  rw [e, parseJTime, expectB_cons]
  simp only [Option.bind_eq_bind, Option.some_bind, Option.pure_def,
    parseTime_renderTime t h (34 :: rest), expectB_cons]

/-! Lemmas: JSON string round-trip on escape-free strings -/

/-- Bytes that Go's JSON encoder emits verbatim inside a string literal. -/
def SafeByte (b : Nat) : Prop :=
  32 ≤ b ∧ b < 256 ∧ b ≠ 34 ∧ b ≠ 92 ∧ b ≠ 60 ∧ b ≠ 62 ∧ b ≠ 38

instance (b : Nat) : Decidable (SafeByte b) := by unfold SafeByte; infer_instance

def SafeStr (s : List Nat) : Prop := ∀ b ∈ s, SafeByte b

instance (s : List Nat) : Decidable (SafeStr s) := List.decidableBAll _ s

theorem escapeByte_safe (b : Nat) (h : SafeByte b) : escapeByte b = [b] := by
  obtain ⟨h1, h2, h3, h4, h5, h6, h7⟩ := h
  unfold escapeByte
  rw [if_neg h3, if_neg h4, if_neg h5, if_neg h6, if_neg h7,
    if_neg (by omega), if_neg (by omega), if_neg (by omega), if_neg (by omega)]

theorem escStr_safe (s : List Nat) (h : SafeStr s) : escStr s = s := by
  induction s with
  | nil => rfl
  | cons b rest ih =>
    have hb : SafeByte b := h b (List.mem_cons_self b rest)
    have hrest : SafeStr rest := fun x hx => h x (List.mem_cons_of_mem b hx)
    rw [escStr, escapeByte_safe b hb, ih hrest]
    rfl

theorem parseStrBytes_safe (s rest : List Nat) (h : SafeStr s) :
    parseStrBytes (s ++ 34 :: rest) = some (s, rest) := by
  induction s with
  | nil =>
    rw [List.nil_append, parseStrBytes.eq_def]
    simp
  | cons b s' ih =>
    have hb : SafeByte b := h b (List.mem_cons_self b s')
    have hs' : SafeStr s' := fun x hx => h x (List.mem_cons_of_mem b hx)
    obtain ⟨h1, h2, h3, h4, h5, h6, h7⟩ := hb
    rw [List.cons_append, parseStrBytes.eq_def]
    simp only [if_neg h3, if_neg h4, ih hs', Option.bind_eq_bind, Option.some_bind,
      Option.pure_def]

theorem parseJStr_jstr (s rest : List Nat) (h : SafeStr s) :
    parseJStr (jstr s ++ rest) = some (s, rest) := by
  have e : jstr s ++ rest = 34 :: (s ++ 34 :: rest) := by
    simp [jstr, escStr_safe s h]
  rw [e]
  simp only [parseJStr, if_pos rfl]
  exact parseStrBytes_safe s rest h

/-! Lemmas: key prefixes -/

theorem stripPre_append (p s : List Nat) : stripPre p (p ++ s) = some s := by
  induction p with
  | nil => rfl
  | cons b p' ih => simp [stripPre, ih]

theorem keySub_eq : keySub = [123, 34, 115, 117, 98, 34, 58] := by decide

theorem keyIss_eq : keyIss = [44, 34, 105, 115, 115, 34, 58] := by decide

theorem keyAud_eq : keyAud = [44, 34, 97, 117, 100, 34, 58] := by decide

theorem keyExp_eq : keyExp = [44, 34, 101, 120, 112, 34, 58] := by decide

theorem keyIat_eq : keyIat = [44, 34, 105, 97, 116, 34, 58] := by decide

theorem keyNbf_eq : keyNbf = [44, 34, 110, 98, 102, 34, 58] := by decide

theorem keyJti_eq : keyJti = [44, 34, 106, 116, 105, 34, 58] := by decide

theorem keyRoles_eq : keyRoles = [44, 34, 114, 111, 108, 101, 115, 34, 58] := by decide

theorem keyMeta_eq : keyMeta = [44, 34, 109, 101, 116, 97, 100, 97, 116, 97, 34, 58] := by decide

theorem noAud_exp (s : List Nat) : stripPre keyAud (keyExp ++ s) = none := by
  rw [keyAud_eq, keyExp_eq]
  simp [stripPre]

theorem noJti_roles (s : List Nat) : stripPre keyJti (keyRoles ++ s) = none := by
  rw [keyJti_eq, keyRoles_eq]
  simp [stripPre]

theorem noJti_meta (s : List Nat) : stripPre keyJti (keyMeta ++ s) = none := by
  rw [keyJti_eq, keyMeta_eq]
  simp [stripPre]

theorem noJti_end : stripPre keyJti [125] = none := by decide

theorem noRoles_meta (s : List Nat) : stripPre keyRoles (keyMeta ++ s) = none := by
  rw [keyRoles_eq, keyMeta_eq]
  simp [stripPre]

theorem noRoles_end : stripPre keyRoles [125] = none := by decide

theorem noMeta_end : stripPre keyMeta [125] = none := by decide

/-! Lemmas: JSON arrays, objects and optional keys -/

theorem tb_length (rs : List (List Nat)) :
    rs.length ≤ ((rs.map (fun x => 44 :: jstr x)).flatten).length := by
  induction rs with
  | nil => simp
  | cons r rs ih =>
    simp only [List.map_cons, List.flatten_cons, List.length_append, List.length_cons]
    omega

theorem parseStrListMore_tb (rs : List (List Nat)) (rest : List Nat)
    (h : ∀ r ∈ rs, SafeStr r) :
    ∀ fuel, rs.length < fuel →
      parseStrListMore fuel ((rs.map (fun x => 44 :: jstr x)).flatten ++ 93 :: rest) =
        some (rs, rest) := by
  induction rs with
  | nil =>
    intro fuel hf
    obtain ⟨f, rfl⟩ : ∃ f, fuel = f + 1 := ⟨fuel - 1, by omega⟩
    rw [List.map_nil, List.flatten_nil, List.nil_append, parseStrListMore, if_pos rfl]
  | cons r rs ih =>
    intro fuel hf
    obtain ⟨f, rfl⟩ : ∃ f, fuel = f + 1 := ⟨fuel - 1, by omega⟩
    have hr : SafeStr r := h r (by simp)
    have hrs : ∀ x ∈ rs, SafeStr x := fun x hx => h x (by simp [hx])
    rw [List.map_cons, List.flatten_cons]
    simp only [List.cons_append, List.append_assoc]
    rw [parseStrListMore, if_neg (by omega : ¬ (44 : Nat) = 93), if_pos rfl,
      parseJStr_jstr _ _ hr]
    simp only [Option.bind_eq_bind, Option.some_bind, Option.pure_def]
    simp only [List.length_cons] at hf
    rw [ih hrs f (by omega)]
    simp

theorem parseStrList_jarr (rs : List (List Nat)) (rest : List Nat)
    (hne : rs ≠ []) (h : ∀ x ∈ rs, SafeStr x) :
    parseStrList (jarr rs ++ rest) = some (rs, rest) := by
  obtain ⟨r, rs', hcons⟩ := List.exists_cons_of_ne_nil hne
  subst hcons
  have hr : SafeStr r := h r (by simp)
  have hrs : ∀ x ∈ rs', SafeStr x := fun x hx => h x (by simp [hx])
  rw [jarr]
  simp only [List.cons_append, List.append_assoc]
  rw [parseStrList, if_pos rfl, parseJStr_jstr _ _ hr]
  simp only [Option.bind_eq_bind, Option.some_bind, Option.pure_def, List.nil_append]
  have hlen : rs'.length <
      ((rs'.map (fun x => 44 :: jstr x)).flatten ++ 93 :: rest).length := by
    have := tb_length rs'
    simp only [List.length_append, List.length_cons]
    omega
  rw [parseStrListMore_tb rs' rest hrs _ hlen]
  simp

theorem parsePair_jpair (p : List Nat × List Nat) (rest : List Nat)
    (h1 : SafeStr p.1) (h2 : SafeStr p.2) :
    parsePair (jpair p ++ rest) = some (p, rest) := by
  rw [jpair]
  simp only [List.append_assoc, List.cons_append]
  rw [parsePair, parseJStr_jstr _ _ h1]
  simp only [Option.bind_eq_bind, Option.some_bind, Option.pure_def, expectB_cons,
    parseJStr_jstr _ _ h2]

theorem pb_length (ps : List (List Nat × List Nat)) :
    ps.length ≤ ((ps.map (fun q => 44 :: jpair q)).flatten).length := by
  induction ps with
  | nil => simp
  | cons p ps ih =>
    simp only [List.map_cons, List.flatten_cons, List.length_append, List.length_cons]
    omega

theorem parseObjMore_pb (ps : List (List Nat × List Nat)) (rest : List Nat)
    (h : ∀ p ∈ ps, SafeStr p.1 ∧ SafeStr p.2) :
    ∀ fuel, ps.length < fuel →
      parseObjMore fuel ((ps.map (fun q => 44 :: jpair q)).flatten ++ 125 :: rest) =
        some (ps, rest) := by
  induction ps with
  | nil =>
    intro fuel hf
    obtain ⟨f, rfl⟩ : ∃ f, fuel = f + 1 := ⟨fuel - 1, by omega⟩
    rw [List.map_nil, List.flatten_nil, List.nil_append, parseObjMore, if_pos rfl]
  | cons p ps ih =>
    intro fuel hf
    obtain ⟨f, rfl⟩ : ∃ f, fuel = f + 1 := ⟨fuel - 1, by omega⟩
    have hp := h p (by simp)
    have hps : ∀ q ∈ ps, SafeStr q.1 ∧ SafeStr q.2 := fun q hq => h q (by simp [hq])
    rw [List.map_cons, List.flatten_cons]
    simp only [List.cons_append, List.append_assoc]
    rw [parseObjMore, if_neg (by omega : ¬ (44 : Nat) = 125), if_pos rfl,
      parsePair_jpair _ _ hp.1 hp.2]
    simp only [Option.bind_eq_bind, Option.some_bind, Option.pure_def]
    simp only [List.length_cons] at hf
    rw [ih hps f (by omega)]
    simp

theorem parseObj_jobj (ps : List (List Nat × List Nat)) (rest : List Nat)
    (hne : ps ≠ []) (h : ∀ p ∈ ps, SafeStr p.1 ∧ SafeStr p.2) :
    parseObj (jobj ps ++ rest) = some (ps, rest) := by
  obtain ⟨p, ps', hcons⟩ := List.exists_cons_of_ne_nil hne
  subst hcons
  have hp := h p (by simp)
  have hps : ∀ q ∈ ps', SafeStr q.1 ∧ SafeStr q.2 := fun q hq => h q (by simp [hq])
  rw [jobj]
  simp only [List.cons_append, List.append_assoc]
  rw [parseObj, if_pos rfl, parsePair_jpair _ _ hp.1 hp.2]
  simp only [Option.bind_eq_bind, Option.some_bind, Option.pure_def, List.nil_append]
  have hlen : ps'.length <
      ((ps'.map (fun q => 44 :: jpair q)).flatten ++ 125 :: rest).length := by
    have := pb_length ps'
    simp only [List.length_append, List.length_cons]
    omega
  rw [parseObjMore_pb ps' rest hps _ hlen]
  simp

theorem parseOptStr_present (key v s : List Nat) (hv : SafeStr v) :
    parseOptStr key (key ++ (jstr v ++ s)) = some (v, s) := by
  rw [parseOptStr, stripPre_append]
  exact parseJStr_jstr v s hv

theorem parseOptStr_absent (key s : List Nat) (h : stripPre key s = none) :
    parseOptStr key s = some ([], s) := by
  rw [parseOptStr, h]

theorem parseOptArr_present (rs : List (List Nat)) (s : List Nat)
    (hne : rs ≠ []) (h : ∀ x ∈ rs, SafeStr x) :
    parseOptArr keyRoles (keyRoles ++ (jarr rs ++ s)) = some (rs, s) := by
  rw [parseOptArr, stripPre_append]
  exact parseStrList_jarr rs s hne h

theorem parseOptArr_absent (key s : List Nat) (h : stripPre key s = none) :
    parseOptArr key s = some ([], s) := by
  rw [parseOptArr, h]

theorem parseOptObj_present (ps : List (List Nat × List Nat)) (s : List Nat)
    (hne : ps ≠ []) (h : ∀ p ∈ ps, SafeStr p.1 ∧ SafeStr p.2) :
    parseOptObj keyMeta (keyMeta ++ (jobj ps ++ s)) = some (ps, s) := by
  rw [parseOptObj, stripPre_append]
  exact parseObj_jobj ps s hne h

theorem parseOptObj_absent (key s : List Nat) (h : stripPre key s = none) :
    parseOptObj key s = some ([], s) := by
  rw [parseOptObj, h]

/-! Lemmas: full claims-document round-trip -/

def SafeStrs (c : Claims) : Prop :=
  SafeStr c.Subject ∧ SafeStr c.Issuer ∧ SafeStr c.Audience ∧ SafeStr c.TokenID
    ∧ (∀ r ∈ c.Roles, SafeStr r) ∧ (∀ p ∈ c.Metadata, SafeStr p.1 ∧ SafeStr p.2)

instance (c : Claims) : Decidable (SafeStrs c) := by unfold SafeStrs; infer_instance

def GoodTimes (c : Claims) : Prop :=
  goodTime c.ExpiresAt ∧ goodTime c.IssuedAt ∧ goodTime c.NotBefore

instance (c : Claims) : Decidable (GoodTimes c) := by unfold GoodTimes; infer_instance

theorem optStrStep (v s key : List Nat) (hv : SafeStr v) (habs : stripPre key s = none) :
    parseOptStr key ((if v = [] then [] else key ++ jstr v) ++ s) = some (v, s) := by
  by_cases h : v = []
  · rw [if_pos h, List.nil_append, parseOptStr_absent _ _ habs, h]
  · rw [if_neg h, List.append_assoc]
    exact parseOptStr_present key v s hv

theorem optArrStep (rs : List (List Nat)) (s : List Nat)
    (h : ∀ x ∈ rs, SafeStr x) (habs : stripPre keyRoles s = none) :
    parseOptArr keyRoles ((if rs = [] then [] else keyRoles ++ jarr rs) ++ s) =
      some (rs, s) := by
  by_cases hr : rs = []
  · rw [if_pos hr, List.nil_append, parseOptArr_absent _ _ habs, hr]
  · rw [if_neg hr, List.append_assoc, parseOptArr, stripPre_append]
    exact parseStrList_jarr rs s hr h

theorem optObjStep (ps : List (List Nat × List Nat)) (s : List Nat)
    (h : ∀ p ∈ ps, SafeStr p.1 ∧ SafeStr p.2) (habs : stripPre keyMeta s = none) :
    parseOptObj keyMeta ((if ps = [] then [] else keyMeta ++ jobj ps) ++ s) =
      some (ps, s) := by
  by_cases hp : ps = []
  · rw [if_pos hp, List.nil_append, parseOptObj_absent _ _ habs, hp]
  · rw [if_neg hp, List.append_assoc, parseOptObj, stripPre_append]
    exact parseObj_jobj ps s hp h

theorem stripJti_tail (rs : List (List Nat)) (ps : List (List Nat × List Nat)) :
    stripPre keyJti ((if rs = [] then [] else keyRoles ++ jarr rs) ++
      ((if ps = [] then [] else keyMeta ++ jobj ps) ++ [125])) = none := by
  by_cases hR : rs = [] <;> by_cases hM : ps = [] <;>
    simp [hR, hM, List.append_assoc, noJti_roles, noJti_meta, noJti_end]

theorem stripRoles_tail (ps : List (List Nat × List Nat)) :
    stripPre keyRoles ((if ps = [] then [] else keyMeta ++ jobj ps) ++ [125]) = none := by
  by_cases hM : ps = [] <;>
    simp [hM, List.append_assoc, noRoles_meta, noRoles_end]

set_option maxHeartbeats 2000000 in
theorem parseClaims_marshalClaims (c : Claims) (hs : SafeStrs c) (ht : GoodTimes c) :
    parseClaims (marshalClaims c) = some c := by
  obtain ⟨hsub, hiss, haud, hjti, hroles, hmeta⟩ := hs
  obtain ⟨hexp, hiat, hnbf⟩ := ht
  rw [parseClaims, marshalClaims]
  simp only [List.append_assoc, List.cons_append, List.nil_append]
  rw [stripPre_append, Option.some_bind]
  rw [parseJStr_jstr _ _ hsub, Option.some_bind]
  simp only []
  rw [pcIss, stripPre_append, Option.some_bind]
  rw [parseJStr_jstr _ _ hiss, Option.some_bind]
  simp only []
  rw [pcAud, optStrStep c.Audience _ keyAud haud (noAud_exp _), Option.some_bind]
  simp only []
  rw [pcExp, stripPre_append, Option.some_bind]
  rw [parseJTime_jtime _ hexp, Option.some_bind]
  simp only []
  rw [pcIat, stripPre_append, Option.some_bind]
  rw [parseJTime_jtime _ hiat, Option.some_bind]
  simp only []
  rw [pcNbf, stripPre_append, Option.some_bind]
  rw [parseJTime_jtime _ hnbf, Option.some_bind]
  simp only []
  rw [pcJti, optStrStep c.TokenID _ keyJti hjti (stripJti_tail c.Roles c.Metadata),
    Option.some_bind]
  simp only []
  rw [pcRoles, optArrStep c.Roles _ hroles (stripRoles_tail c.Metadata), Option.some_bind]
  simp only []
  rw [pcMeta, optObjStep c.Metadata _ hmeta noMeta_end, Option.some_bind]
  simp only []
  rfl

/-! Lemmas: byte bounds of the marshalled document -/

theorem jstr_lt (s : List Nat) (h : SafeStr s) : ∀ b ∈ jstr s, b < 256 := by
  intro b hb
  rw [jstr, escStr_safe s h] at hb
  rcases List.mem_cons.mp hb with rfl | hb2
  · omega
  · rcases List.mem_append.mp hb2 with h3 | h3
    · exact (h b h3).2.1
    · simp at h3
      omega

theorem renderTime_lt (t : Nat) : ∀ b ∈ renderTime t, b < 256 := by
  intro b hb
  rw [renderTime] at hb
  simp only [dig4, dig2, List.mem_append, List.mem_cons, List.not_mem_nil, or_false] at hb
  omega

theorem jtime_lt (t : Nat) : ∀ b ∈ jtime t, b < 256 := by
  intro b hb
  rw [jtime] at hb
  rcases List.mem_cons.mp hb with rfl | hb2
  · omega
  · rcases List.mem_append.mp hb2 with h3 | h3
    · exact renderTime_lt t b h3
    · simp at h3
      omega

theorem jarr_lt (rs : List (List Nat)) (h : ∀ x ∈ rs, SafeStr x) :
    ∀ b ∈ jarr rs, b < 256 := by
  cases rs with
  | nil => decide
  | cons r rs =>
    intro b hb
    rw [jarr] at hb
    rcases List.mem_cons.mp hb with rfl | hb2
    · omega
    · rcases List.mem_append.mp hb2 with h3 | h3
      · exact jstr_lt r (h r (by simp)) b h3
      · rcases List.mem_append.mp h3 with h4 | h4
        · rw [List.mem_flatten] at h4
          obtain ⟨l, hl, hbl⟩ := h4
          rw [List.mem_map] at hl
          obtain ⟨x, hx, rfl⟩ := hl
          rcases List.mem_cons.mp hbl with rfl | hb5
          · omega
          · exact jstr_lt x (h x (by simp [hx])) b hb5
        · simp at h4
          omega

theorem jpair_lt (p : List Nat × List Nat) (h1 : SafeStr p.1) (h2 : SafeStr p.2) :
    ∀ b ∈ jpair p, b < 256 := by
  intro b hb
  rw [jpair] at hb
  rcases List.mem_append.mp hb with h3 | h3
  · exact jstr_lt p.1 h1 b h3
  · rcases List.mem_cons.mp h3 with rfl | h4
    · omega
    · exact jstr_lt p.2 h2 b h4

theorem jobj_lt (ps : List (List Nat × List Nat)) (h : ∀ p ∈ ps, SafeStr p.1 ∧ SafeStr p.2) :
    ∀ b ∈ jobj ps, b < 256 := by
  cases ps with
  | nil => decide
  | cons p ps =>
    intro b hb
    rw [jobj] at hb
    rcases List.mem_cons.mp hb with rfl | hb2
    · omega
    · rcases List.mem_append.mp hb2 with h3 | h3
      · exact jpair_lt p (h p (by simp)).1 (h p (by simp)).2 b h3
      · rcases List.mem_append.mp h3 with h4 | h4
        · rw [List.mem_flatten] at h4
          obtain ⟨l, hl, hbl⟩ := h4
          rw [List.mem_map] at hl
          obtain ⟨x, hx, rfl⟩ := hl
          rcases List.mem_cons.mp hbl with rfl | hb5
          · omega
          · exact jpair_lt x (h x (by simp [hx])).1 (h x (by simp [hx])).2 b hb5
        · simp at h4
          omega

theorem mem_if_nil {P : Prop} [Decidable P] (b : Nat) (l : List Nat)
    (h : b ∈ (if P then ([] : List Nat) else l)) : b ∈ l := by
  split at h
  · simp at h
  · exact h

theorem marshal_lt (c : Claims) (hs : SafeStrs c) : ∀ b ∈ marshalClaims c, b < 256 := by
  obtain ⟨hsub, hiss, haud, hjti, hroles, hmeta⟩ := hs
  intro b hb
  rw [marshalClaims] at hb
  simp only [List.mem_append] at hb
  rcases hb with (((((((((h | h) | (h | h)) | h) | (h | h)) | (h | h)) | (h | h)) | h) | h) | h) | h
  · exact (by decide : ∀ x ∈ keySub, x < 256) b h
  · exact jstr_lt _ hsub b h
  · exact (by decide : ∀ x ∈ keyIss, x < 256) b h
  · exact jstr_lt _ hiss b h
  · rcases List.mem_append.mp (mem_if_nil b _ h) with h2 | h2
    · exact (by decide : ∀ x ∈ keyAud, x < 256) b h2
    · exact jstr_lt _ haud b h2
  · exact (by decide : ∀ x ∈ keyExp, x < 256) b h
  · exact jtime_lt _ b h
  · exact (by decide : ∀ x ∈ keyIat, x < 256) b h
  · exact jtime_lt _ b h
  · exact (by decide : ∀ x ∈ keyNbf, x < 256) b h
  · exact jtime_lt _ b h
  · rcases List.mem_append.mp (mem_if_nil b _ h) with h2 | h2
    · exact (by decide : ∀ x ∈ keyJti, x < 256) b h2
    · exact jstr_lt _ hjti b h2
  · rcases List.mem_append.mp (mem_if_nil b _ h) with h2 | h2
    · exact (by decide : ∀ x ∈ keyRoles, x < 256) b h2
    · exact jarr_lt _ hroles b h2
  · rcases List.mem_append.mp (mem_if_nil b _ h) with h2 | h2
    · exact (by decide : ∀ x ∈ keyMeta, x < 256) b h2
    · exact jobj_lt _ hmeta b h2
  · simp at h
    omega

/-! Lemmas: Validate after Generate -/

namespace Jwt

theorem sign_no_dot (cfg : Config) (m : List Nat) : 46 ∉ sign cfg m := by
  rw [sign]
  exact b64encode_no_dot _

/-- The claims as stamped by `Generate` before serialization. -/
def stamp (cfg : Config) (c : Claims) (now : Nat) : Claims :=
  { c with Issuer := cfg.Issuer, IssuedAt := now, ExpiresAt := now + cfg.AccessTokenTTL }

theorem stamp_exp (cfg : Config) (c : Claims) (now : Nat) :
    (stamp cfg c now).ExpiresAt = now + cfg.AccessTokenTTL := rfl

theorem generate_value (cfg : Config) (c : Claims) (now : Nat) :
    (Generate cfg c now).Value =
      (b64encode headerJson ++ 46 :: b64encode (marshalClaims (stamp cfg c now))) ++
        46 :: sign cfg (b64encode headerJson ++ 46 :: b64encode (marshalClaims (stamp cfg c now))) :=
  rfl

theorem GenerateE_ok (cfg : Config) (c : Claims) (now : Nat) (h : MarshalTimesOk cfg c now) :
    GenerateE cfg c now = some (Generate cfg c now) := by
  obtain ⟨h1, h2, h3⟩ := h
  rw [GenerateE, marshalClaimsE]
  simp only []
  rw [if_pos ⟨h1, h2, h3⟩]
  rfl

theorem GenerateE_none (cfg : Config) (c : Claims) (now : Nat)
    (h : ¬ MarshalTimesOk cfg c now) : GenerateE cfg c now = none := by
  rw [GenerateE, marshalClaimsE]
  simp only []
  rw [if_neg (fun hx => h ⟨hx.1, hx.2.1, hx.2.2⟩)]
  rfl

theorem validate_generate (cfg : Config) (c : Claims) (t0 t1 : Nat)
    (hs : SafeStrs (stamp cfg c t0)) (ht : GoodTimes (stamp cfg c t0))
    (ht1 : t1 ≤ t0 + cfg.AccessTokenTTL) :
    Validate cfg (Generate cfg c t0).Value t1 = Except.ok (stamp cfg c t0) := by
  rw [Validate, generate_value, List.append_assoc, List.cons_append]
  rw [splitByte_three 46 _ _ _ (b64encode_no_dot _) (b64encode_no_dot _) (sign_no_dot cfg _)]
  simp only [if_true]
  rw [b64decode_b64encode _ (marshal_lt _ hs)]
  simp only []
  rw [parseClaims_marshalClaims _ hs ht]
  simp only []
  rw [if_neg (show ¬ ((stamp cfg c t0).ExpiresAt < t1) by rw [stamp_exp]; omega)]

end Jwt

/-! Lemmas: Validate on corrupted or expired tokens -/

theorem mapAt_getD (i : Nat) (f : Nat → Nat) (l : List Nat) (h : i < l.length) :
    (mapAt i f l).getD i 0 = f (l.getD i 0) := by
  induction l generalizing i with
  | nil => simp at h
  | cons b rest ih =>
    cases i with
    | zero => simp [mapAt]
    | succ j =>
      rw [mapAt]
      simp only [List.getD_cons_succ]
      exact ih j (by simpa using h)

theorem mapAt_ne (i : Nat) (f : Nat → Nat) (l : List Nat) (hi : i < l.length)
    (hch : f (l.getD i 0) ≠ l.getD i 0) : mapAt i f l ≠ l := by
  intro he
  exact hch (by rw [← mapAt_getD i f l hi, he])

namespace Jwt

/-- The first two segments of a generated token, as `Generate` builds
them. -/
def messageOf (cfg : Config) (c : Claims) (now : Nat) : List Nat :=
  b64encode headerJson ++ 46 :: b64encode (marshalClaims (stamp cfg c now))

/-- The signature segment of a generated token. -/
def signatureOf (cfg : Config) (c : Claims) (now : Nat) : List Nat :=
  sign cfg (messageOf cfg c now)

theorem generate_value_segments (cfg : Config) (c : Claims) (now : Nat) :
    (Generate cfg c now).Value = messageOf cfg c now ++ 46 :: signatureOf cfg c now :=
  rfl

/-- Any three-segment token whose third segment is not the correct HMAC
is rejected as `invalid signature`, whatever the clock says. -/
theorem validate_badsig (cfg : Config) (hEnc cEnc sig2 : List Nat) (now : Nat)
    (hh : 46 ∉ hEnc) (hc : 46 ∉ cEnc) (hsig : 46 ∉ sig2)
    (hne : ¬ (sig2 = sign cfg (hEnc ++ 46 :: cEnc))) :
    Validate cfg (hEnc ++ 46 :: (cEnc ++ 46 :: sig2)) now =
      Except.error ValidateErr.invalidSignature := by
  rw [Validate, splitByte_three 46 _ _ _ hh hc hsig]
  simp only []
  rw [if_neg hne]

/-- Any correctly signed three-segment token with parseable claims whose
expiry is in the past is rejected as `expired`. -/
theorem validate_signed_expired (cfg : Config) (hEnc cEnc j : List Nat) (claims : Claims)
    (now : Nat) (hh : 46 ∉ hEnc) (hc : 46 ∉ cEnc)
    (hdec : b64decode cEnc = some j) (hparse : parseClaims j = some claims)
    (hexp : claims.ExpiresAt < now) :
    Validate cfg (hEnc ++ 46 :: (cEnc ++ 46 :: sign cfg (hEnc ++ 46 :: cEnc))) now =
      Except.error ValidateErr.expired := by
  rw [Validate, splitByte_three 46 _ _ _ hh hc (sign_no_dot cfg _)]
  simp only [if_true]
  rw [hdec]
  simp only []
  rw [hparse]
  simp only []
  rw [if_pos hexp]

end Jwt

/-! Concrete values used to instantiate the theorems -/

/-- Witness configuration: secret `"k4"`, access TTL 60 s, issuer `"i"`. -/
def cfgW : Jwt.Config := ⟨ascii "k4", 60, 3600, ascii "i"⟩

/-- Minimal claims: subject `"u"`, all optional fields empty. -/
def claimsW : Claims := ⟨ascii "u", [], [], 0, 0, 0, [], [], []⟩

/-- Claims exercising every optional field. -/
def claimsR : Claims :=
  ⟨ascii "user-1", [], ascii "svc", 0, 0, 63902822400, ascii "tid-9",
    [ascii "admin", ascii "user"], [(ascii "env", ascii "prod"), (ascii "ver", ascii "2")]⟩

/-- 2026-01-01T00:00:00Z in seconds since 0001-01-01. -/
def t0W : Nat := 63902822400

/-- Claims whose expiry (60) is long past `t0W`. -/
def claimsC2 : Claims := ⟨ascii "u", ascii "i", [], 60, 0, 0, [], [], []⟩

/-- A token with expired claims and a syntactically valid but wrong
signature segment. -/
def tokC2 : List Nat :=
  b64encode headerJson ++ 46 :: (b64encode (marshalClaims claimsC2) ++ 46 :: ascii "x")

/-- The two signed segments of the token `Generate cfgW claimsW t0W`. -/
def msgW : List Nat := Jwt.messageOf cfgW claimsW t0W

/-- Its signature segment (contains byte `'n'` = 110 at index 3). -/
def sigW : List Nat := Jwt.signatureOf cfgW claimsW t0W

/-- A heartbeat-only service record, healthy, last heartbeat at 0. -/
def svcX : Reg.ServiceRecord :=
  ⟨ascii "svc-1", ascii "payments", ascii "1.0", [ascii "http://svc-1:1"],
    [ascii "payment"], [], Reg.Status.healthy, 0, 0, []⟩

/-- A stored session that expires at 50. -/
def sessW : Sess.Session := ⟨ascii "s1", ascii "u1", ascii "svc", [(ascii "k", ascii "v")], 0, 50, 0⟩

def storeW : Sess.Store := [(ascii "s1", sessW)]

/-- Claims with a not-before instant in the future relative to `t0W`. -/
def claimsN : Claims := ⟨ascii "u", [], [], 0, 0, 63902823400, [], [], []⟩

/-! The claims C1..C10 -/

/-- C1: for every valid claims value (escape-free strings, representable
times), validating the value of the token returned by `Generate` succeeds
and returns claims equal to the input in every field except issuer,
issued-at and expires-at, which `Generate` stamps from its configuration
and the generation instant `t0`; `t1` is the validation instant. -/
theorem claim_C1_roundtrip (cfg : Jwt.Config) (c : Claims) (t0 t1 : Nat)
    (hsub : SafeStr c.Subject) (hissuer : SafeStr cfg.Issuer) (haud : SafeStr c.Audience)
    (hjti : SafeStr c.TokenID) (hroles : ∀ r ∈ c.Roles, SafeStr r)
    (hmeta : ∀ p ∈ c.Metadata, SafeStr p.1 ∧ SafeStr p.2)
    (hexp : goodTime (t0 + cfg.AccessTokenTTL)) (hiat : goodTime t0)
    (hnbf : goodTime c.NotBefore) (ht1 : t1 ≤ t0 + cfg.AccessTokenTTL) :
    Jwt.Validate cfg (Jwt.Generate cfg c t0).Value t1 =
      Except.ok { c with
        Issuer := cfg.Issuer
        IssuedAt := t0
        ExpiresAt := t0 + cfg.AccessTokenTTL } :=
  Jwt.validate_generate cfg c t0 t1 ⟨hsub, hissuer, haud, hjti, hroles, hmeta⟩
    ⟨hexp, hiat, hnbf⟩ ht1

set_option maxRecDepth 1000000 in
theorem claim_C1_witness :
    Jwt.Validate cfgW (Jwt.Generate cfgW claimsR t0W).Value t0W =
      Except.ok { claimsR with
        Issuer := cfgW.Issuer
        IssuedAt := t0W
        ExpiresAt := t0W + cfgW.AccessTokenTTL } :=
  claim_C1_roundtrip cfgW claimsR t0W t0W (by decide) (by decide) (by decide) (by decide)
    (by decide) (by decide) (by decide) (by decide) (by decide) (by decide)

/-- C2 (amended): for every three-segment token whose claims segment
parses with expires-at in the past, `Validate` returns `Expired` exactly
when the signature segment is the correct HMAC and `InvalidSignature`
otherwise — the signature is checked before expiry, so the result is not
`Expired` regardless of signature validity (see the counterexample). -/
theorem claim_C2_expired_order (cfg : Jwt.Config) (hEnc cEnc sg j : List Nat)
    (claims : Claims) (now : Nat) (hh : 46 ∉ hEnc) (hc : 46 ∉ cEnc) (hsg : 46 ∉ sg)
    (hdec : b64decode cEnc = some j) (hparse : parseClaims j = some claims)
    (hexp : claims.ExpiresAt < now) :
    Jwt.Validate cfg (hEnc ++ 46 :: (cEnc ++ 46 :: sg)) now =
      (if sg = Jwt.sign cfg (hEnc ++ 46 :: cEnc)
       then Except.error Jwt.ValidateErr.expired
       else Except.error Jwt.ValidateErr.invalidSignature) := by
  by_cases hs : sg = Jwt.sign cfg (hEnc ++ 46 :: cEnc)
  · rw [if_pos hs, hs]
    exact Jwt.validate_signed_expired cfg hEnc cEnc j claims now hh hc hdec hparse hexp
  · rw [if_neg hs]
    exact Jwt.validate_badsig cfg hEnc cEnc sg now hh hc hsg hs

set_option maxRecDepth 1000000 in
theorem claim_C2_witness :
    Jwt.Validate cfgW (b64encode headerJson ++ 46 :: (b64encode (marshalClaims claimsC2) ++
        46 :: Jwt.sign cfgW (b64encode headerJson ++ 46 :: b64encode (marshalClaims claimsC2))))
      t0W = Except.error Jwt.ValidateErr.expired :=
  (claim_C2_expired_order cfgW (b64encode headerJson) (b64encode (marshalClaims claimsC2))
      (Jwt.sign cfgW (b64encode headerJson ++ 46 :: b64encode (marshalClaims claimsC2)))
      (marshalClaims claimsC2) claimsC2 t0W (by decide) (by decide) (by decide) (by decide)
      (by decide) (by decide)).trans (by decide)

set_option maxRecDepth 1000000 in
theorem claim_C2_counterexample :
    Option.bind (b64decode (b64encode (marshalClaims claimsC2))) parseClaims = some claimsC2 ∧
    claimsC2.ExpiresAt < t0W ∧
    Jwt.Validate cfgW tokC2 t0W = Except.error Jwt.ValidateErr.invalidSignature ∧
    Jwt.Validate cfgW tokC2 t0W ≠ Except.error Jwt.ValidateErr.expired :=
  ⟨by decide, by decide, by decide, by decide⟩

/-- C3 (amended): for every generated token, changing the byte at any
index of the signature segment — so long as the changed segment does not
contain the `.` separator byte — makes `Validate` return
`InvalidSignature`; a change that produces a `.` byte changes the
segment count instead and yields `InvalidFormat` (see the
counterexample). -/
theorem claim_C3_flip (cfg : Jwt.Config) (c : Claims) (now now2 : Nat) (i : Nat)
    (f : Nat → Nat) (hi : i < (Jwt.signatureOf cfg c now).length)
    (hch : f ((Jwt.signatureOf cfg c now).getD i 0) ≠ (Jwt.signatureOf cfg c now).getD i 0)
    (hnd : 46 ∉ mapAt i f (Jwt.signatureOf cfg c now)) :
    (Jwt.Generate cfg c now).Value =
      Jwt.messageOf cfg c now ++ 46 :: Jwt.signatureOf cfg c now ∧
    Jwt.Validate cfg (Jwt.messageOf cfg c now ++ 46 :: mapAt i f (Jwt.signatureOf cfg c now))
      now2 = Except.error Jwt.ValidateErr.invalidSignature := by
  refine ⟨rfl, ?_⟩
  have hne : mapAt i f (Jwt.signatureOf cfg c now) ≠ Jwt.signatureOf cfg c now :=
    mapAt_ne i f _ hi hch
  rw [Jwt.messageOf, List.append_assoc, List.cons_append]
  exact Jwt.validate_badsig cfg _ _ _ now2 (b64encode_no_dot _) (b64encode_no_dot _) hnd hne

set_option maxRecDepth 1000000 in
theorem claim_C3_witness :
    (Jwt.Generate cfgW claimsW t0W).Value =
      Jwt.messageOf cfgW claimsW t0W ++ 46 :: Jwt.signatureOf cfgW claimsW t0W ∧
    Jwt.Validate cfgW (Jwt.messageOf cfgW claimsW t0W ++
        46 :: mapAt 0 (fun b => b ^^^ 1) (Jwt.signatureOf cfgW claimsW t0W)) t0W =
      Except.error Jwt.ValidateErr.invalidSignature :=
  claim_C3_flip cfgW claimsW t0W t0W 0 (fun b => b ^^^ 1) (by decide) (by decide) (by decide)

set_option maxRecDepth 1000000 in
theorem claim_C3_counterexample :
    (Jwt.Generate cfgW claimsW t0W).Value = msgW ++ 46 :: sigW ∧
    sigW.getD 3 0 = 110 ∧
    (110 : Nat) ^^^ 64 = 46 ∧
    Jwt.Validate cfgW (msgW ++ 46 :: mapAt 3 (fun b => b ^^^ 64) sigW) t0W =
      Except.error Jwt.ValidateErr.invalidFormat ∧
    Jwt.Validate cfgW (msgW ++ 46 :: mapAt 3 (fun b => b ^^^ 64) sigW) t0W ≠
      Except.error Jwt.ValidateErr.invalidSignature :=
  ⟨by decide, by decide, by decide, by decide, by decide⟩

/-- Claims whose caller-supplied not-before lies in year 10000
(315537897600 s = 10000-01-01T00:00:00), outside `time.Time.MarshalJSON`'s
accepted range. -/
def claimsY : Claims := ⟨ascii "u", [], [], 0, 0, 315537897600, [], [], []⟩

/-- C8 (amended): `NewService` succeeds exactly when the configured
secret is non-empty, and on a successfully constructed authority
`Generate` fails exactly when `json.Marshal` rejects the stamped claims
— that is, when one of the rendered times (expires-at `now + TTL`,
issued-at `now`, or the caller-supplied not-before) has a year outside
[0, 9999]; whenever those times are in range it succeeds with the signed
access token of the success path. -/
theorem claim_C8_generate_iff (cfg : Jwt.Config) :
    ((Jwt.NewService cfg).isSome ↔ cfg.Secret ≠ []) ∧
    ∀ svc, Jwt.NewService cfg = some svc → svc = cfg ∧
      ∀ (c : Claims) (now : Nat),
        ((Jwt.GenerateE svc c now).isSome ↔ Jwt.MarshalTimesOk svc c now) ∧
        (Jwt.MarshalTimesOk svc c now →
          Jwt.GenerateE svc c now = some (Jwt.Generate svc c now)) := by
  constructor
  · rw [Jwt.NewService]
    by_cases h : cfg.Secret = [] <;> simp [h]
  · intro svc h
    rw [Jwt.NewService] at h
    by_cases hs : cfg.Secret = []
    · rw [if_pos hs] at h
      exact absurd h (by simp)
    · rw [if_neg hs] at h
      injection h with h2
      subst h2
      refine ⟨rfl, fun c now => ⟨⟨?_, ?_⟩, Jwt.GenerateE_ok cfg c now⟩⟩
      · intro hsome
        by_contra hok
        rw [Jwt.GenerateE_none cfg c now hok] at hsome
        simp at hsome
      · intro hok
        rw [Jwt.GenerateE_ok cfg c now hok]
        simp

theorem claim_C8_witness :
    ((Jwt.GenerateE cfgW claimsW t0W).isSome ↔ Jwt.MarshalTimesOk cfgW claimsW t0W) ∧
    Jwt.GenerateE cfgW claimsW t0W = some (Jwt.Generate cfgW claimsW t0W) :=
  ⟨(((claim_C8_generate_iff cfgW).2 cfgW (by decide)).2 claimsW t0W).1,
   (((claim_C8_generate_iff cfgW).2 cfgW (by decide)).2 claimsW t0W).2 (by decide)⟩

theorem claim_C8_counterexample :
    Jwt.NewService cfgW = some cfgW ∧
    (Jwt.NewService cfgW).isSome ∧
    Jwt.GenerateE cfgW claimsY t0W = none :=
  ⟨by decide, by decide, by decide⟩

/-- C10: `Validate` never checks the not-before claim: a generated token
with valid signature, parseable claims and unexpired expires-at is
accepted, and its claims returned, even when the claims' not-before
instant is strictly in the future of the validation instant `t1`. -/
theorem claim_C10_nbf_ignored (cfg : Jwt.Config) (c : Claims) (t0 t1 : Nat)
    (hsub : SafeStr c.Subject) (hissuer : SafeStr cfg.Issuer) (haud : SafeStr c.Audience)
    (hjti : SafeStr c.TokenID) (hroles : ∀ r ∈ c.Roles, SafeStr r)
    (hmeta : ∀ p ∈ c.Metadata, SafeStr p.1 ∧ SafeStr p.2)
    (hexp : goodTime (t0 + cfg.AccessTokenTTL)) (hiat : goodTime t0)
    (hnbf : goodTime c.NotBefore) (ht1 : t1 ≤ t0 + cfg.AccessTokenTTL)
    (hfut : t1 < c.NotBefore) :
    Jwt.Validate cfg (Jwt.Generate cfg c t0).Value t1 =
      Except.ok { c with
        Issuer := cfg.Issuer
        IssuedAt := t0
        ExpiresAt := t0 + cfg.AccessTokenTTL } :=
  Jwt.validate_generate cfg c t0 t1 ⟨hsub, hissuer, haud, hjti, hroles, hmeta⟩
    ⟨hexp, hiat, hnbf⟩ ht1

set_option maxRecDepth 1000000 in
theorem claim_C10_witness :
    Jwt.Validate cfgW (Jwt.Generate cfgW claimsN t0W).Value t0W =
      Except.ok { claimsN with
        Issuer := cfgW.Issuer
        IssuedAt := t0W
        ExpiresAt := t0W + cfgW.AccessTokenTTL } :=
  claim_C10_nbf_ignored cfgW claimsN t0W t0W (by decide) (by decide) (by decide) (by decide)
    (by decide) (by decide) (by decide) (by decide) (by decide) (by decide) (by decide)

/-- C4: `Discover` returns exactly the registered records that are
healthy and match the capability filter; the empty capability matches
every healthy record, and unknown or unhealthy records are never
returned. -/
theorem claim_C4_discover (services : List Reg.ServiceRecord) (cap : List Nat)
    (r : Reg.ServiceRecord) :
    r ∈ Reg.Discover services cap ↔
      r ∈ services ∧ r.Status = Reg.Status.healthy ∧ (cap = [] ∨ cap ∈ r.Capabilities) := by
  simp only [Reg.Discover, List.mem_filter, Bool.and_eq_true, decide_eq_true_eq,
    Reg.hasCapability]
  by_cases hc : cap = [] <;> simp [hc, and_assoc]

/-- C5: one cleanup sweep removes exactly the sessions whose expiry is
strictly before the sweep instant and returns their count; every other
session survives unchanged (the survivor list is the filter of the
original). -/
theorem claim_C5_delete_expired (now : Int) (m : Sess.Store) :
    (Sess.DeleteExpired now m).1 = m.filter (fun p => decide (¬ p.2.ExpiresAt < now)) ∧
    (Sess.DeleteExpired now m).2 =
      (m.filter (fun p => decide (p.2.ExpiresAt < now))).length ∧
    ∀ e, e ∈ (Sess.DeleteExpired now m).1 ↔ e ∈ m ∧ ¬ e.2.ExpiresAt < now := by
  have key : (Sess.DeleteExpired now m).1 = m.filter (fun p => decide (¬ p.2.ExpiresAt < now))
      ∧ (Sess.DeleteExpired now m).2 =
        (m.filter (fun p => decide (p.2.ExpiresAt < now))).length := by
    induction m with
    | nil => exact ⟨rfl, rfl⟩
    | cons p rest ih =>
      rw [Sess.DeleteExpired]
      by_cases h : p.2.ExpiresAt < now <;>
        simp [List.filter_cons, h, ih.1, ih.2] <;>
        rw [if_pos (by omega)]
  refine ⟨key.1, key.2, fun e => ?_⟩
  rw [key.1, List.mem_filter]
  simp

/-- C6 (amended): during a sweep, a record with no health-check URL is
marked unhealthy and written back exactly when it is already unhealthy
or its last heartbeat is at least `2 × interval` old (the code's
`IsHealthy` uses `<` on the age, so the boundary age `= 2 × interval`
is written, and an already-unhealthy record is re-written even with a
fresh heartbeat); otherwise it is left unchanged with no write. -/
theorem claim_C6_sweep (interval now : Int) (svc : Reg.ServiceRecord)
    (hurl : svc.HealthCheckURL = []) :
    Reg.sweepRecord interval now svc =
      if svc.Status = Reg.Status.unhealthy ∨ interval * 2 ≤ now - svc.LastHeartbeat
      then (Reg.MarkUnhealthy svc, true) else (svc, false) := by
  by_cases h1 : svc.Status = Reg.Status.unhealthy
  · have hb : ¬ (Reg.IsHealthy svc (interval * 2) now = true) := by
      simp [Reg.IsHealthy, h1]
    rw [Reg.sweepRecord, if_pos hurl, if_neg hb, if_pos (Or.inl h1)]
  · by_cases h2 : now - svc.LastHeartbeat < interval * 2
    · have hb : Reg.IsHealthy svc (interval * 2) now = true := by
        simp [Reg.IsHealthy, h1, h2]
      rw [Reg.sweepRecord, if_pos hurl, if_pos hb,
        if_neg (by rintro (h | h); exacts [h1 h, by omega])]
    · have hb : ¬ (Reg.IsHealthy svc (interval * 2) now = true) := by
        simp [Reg.IsHealthy, h1, h2]
      rw [Reg.sweepRecord, if_pos hurl, if_neg hb, if_pos (Or.inr (by omega))]

theorem claim_C6_witness :
    Reg.sweepRecord 5 12 svcX = (Reg.MarkUnhealthy svcX, true) :=
  (claim_C6_sweep 5 12 svcX rfl).trans (by decide)

theorem claim_C6_counterexample :
    ¬ ((10 : Int) - svcX.LastHeartbeat > 2 * 5) ∧
    Reg.sweepRecord 5 10 svcX = (Reg.MarkUnhealthy svcX, true) ∧
    Reg.sweepRecord 5 10 svcX ≠ (svcX, false) :=
  ⟨by decide, by decide, by decide⟩

/-- C7: `Get` on a stored but expired session returns the `Expired`
error — a distinct constructor from `NotFound` — and performs no write:
the store is returned unchanged. -/
theorem claim_C7_get_expired (m : Sess.Store) (id : List Nat) (sess : Sess.Session)
    (now : Int) (hfound : Sess.lookupA m id = some sess) (hexp : sess.ExpiresAt < now) :
    Sess.serviceGet m id now = (Except.error Sess.Err.expired, m) := by
  rw [Sess.serviceGet, Sess.repoGet, hfound]
  simp only []
  rw [if_pos (show Sess.IsExpired sess now = true by simp [Sess.IsExpired, hexp])]

theorem claim_C7_witness :
    Sess.serviceGet storeW (ascii "s1") 100 = (Except.error Sess.Err.expired, storeW) :=
  claim_C7_get_expired storeW (ascii "s1") sessW 100 (by decide) (by decide)

theorem lookupA_set_eq (m : Sess.Store) (id : List Nat) (v : Sess.Session) :
    (Sess.lookupA m id).isSome →
    Sess.lookupA (m.map (fun p => if p.1 = id then (p.1, v) else p)) id = some v := by
  induction m with
  | nil => intro h; simp [Sess.lookupA] at h
  | cons p rest ih =>
    intro h
    by_cases hp : p.1 = id
    · rw [List.map_cons, if_pos hp]
      simp [Sess.lookupA, hp]
    · rw [List.map_cons, if_neg hp]
      have h2 : (Sess.lookupA rest id).isSome := by
        simpa [Sess.lookupA, hp] using h
      simp [Sess.lookupA, hp, ih h2]

theorem lookupA_set_ne (m : Sess.Store) (id : List Nat) (v : Sess.Session) (k : List Nat)
    (hk : k ≠ id) :
    Sess.lookupA (m.map (fun p => if p.1 = id then (p.1, v) else p)) k =
      Sess.lookupA m k := by
  induction m with
  | nil => rfl
  | cons p rest ih =>
    by_cases hp : p.1 = id
    · rw [List.map_cons, if_pos hp]
      have hpk : ¬ (p.1 = k) := by rw [hp]; exact fun h => hk h.symm
      simp [Sess.lookupA, hpk, ih]
    · rw [List.map_cons, if_neg hp]
      by_cases hpk : p.1 = k <;> simp [Sess.lookupA, hpk, ih]

/-- C9: a successful `Update(id, d)` on an unexpired stored session
replaces the data payload wholesale by `d` and stamps updated-at to the
update instant, leaving the session's id, user id, service id,
created-at and expires-at unchanged, and leaving every other stored
session untouched. -/
theorem claim_C9_update_frame (m : Sess.Store) (id : List Nat) (sess : Sess.Session)
    (d : List (List Nat × List Nat)) (now : Int)
    (hfound : Sess.lookupA m id = some sess) (hid : sess.ID = id)
    (hnotexp : ¬ sess.ExpiresAt < now) :
    (Sess.serviceUpdate m id d now).1 = Except.ok () ∧
    Sess.lookupA (Sess.serviceUpdate m id d now).2 id =
      some { sess with Data := d, UpdatedAt := now } ∧
    ∀ k, k ≠ id → Sess.lookupA (Sess.serviceUpdate m id d now).2 k = Sess.lookupA m k := by
  have hget : (Sess.serviceGet m id now).1 = Except.ok sess := by
    rw [Sess.serviceGet, Sess.repoGet, hfound]
    simp [Sess.IsExpired, hnotexp]
  have hidd : (Sess.Touch { sess with Data := d } now).ID = id := hid
  have hrepo : Sess.repoUpdate m (Sess.Touch { sess with Data := d } now) =
      Except.ok (m.map (fun p =>
        if p.1 = id then (p.1, Sess.Touch { sess with Data := d } now) else p)) := by
    rw [Sess.repoUpdate, hidd, hfound]
  have hsu : Sess.serviceUpdate m id d now =
      (Except.ok (), m.map (fun p =>
        if p.1 = id then (p.1, Sess.Touch { sess with Data := d } now) else p)) := by
    rw [Sess.serviceUpdate, hget]
    simp only []
    rw [hrepo]
  refine ⟨by rw [hsu], ?_, ?_⟩
  · rw [hsu]
    exact lookupA_set_eq m id _ (by rw [hfound]; rfl)
  · intro k hk
    rw [hsu]
    exact lookupA_set_ne m id _ k hk

theorem claim_C9_witness :
    (Sess.serviceUpdate storeW (ascii "s1") [(ascii "x", ascii "y")] 40).1 = Except.ok () ∧
    Sess.lookupA (Sess.serviceUpdate storeW (ascii "s1") [(ascii "x", ascii "y")] 40).2
        (ascii "s1") =
      some { sessW with Data := [(ascii "x", ascii "y")], UpdatedAt := 40 } ∧
    ∀ k, k ≠ ascii "s1" →
      Sess.lookupA (Sess.serviceUpdate storeW (ascii "s1") [(ascii "x", ascii "y")] 40).2 k =
        Sess.lookupA storeW k :=
  claim_C9_update_frame storeW (ascii "s1") sessW [(ascii "x", ascii "y")] 40 (by decide)
    (by decide) (by decide)
